import Mathlib

/-!
Shallow embedding of the engula-supervisor chaos/consistency harness:
the deterministic workload generator (`src/gen.rs`), the value wire codec
(`src/value.rs`), the writer's step-tracking execution (`src/writer.rs`)
and the reader's per-writer tracker state machine (`src/reader.rs`).

Machine integers (`u64`/`usize`, both 8 bytes here) are embedded as `Nat`
with explicit `% 2^64` where wrapping matters.  The store is external
(`engula_client::Collection`); its read result enters `verify_next_op`
as an explicit parameter.
-/

namespace Supervisor

/-- Two to the 64, the modulus of `u64`/`usize` arithmetic. -/
def U64 : Nat := 2 ^ 64

/-- Two to the 32, the modulus of `u32` arithmetic. -/
def U32 : Nat := 2 ^ 32

/-- 64-bit rotate left, `u64::rotate_left`. -/
def rotl64 (x r : Nat) : Nat :=
  ((x <<< r) ||| (x >>> (64 - r))) % U64

/-- One step of the SplitMix64 stream: returns (new state, output).
Modelled from the spec's requirement of a named, versioned, portable
deterministic PRNG: this is the seeding stream of rand 0.8's
`Xoshiro256PlusPlus::seed_from_u64` (the implementation behind
`SmallRng::seed_from_u64` used at `gen.rs` line 19). -/
def splitmix64 (state : Nat) : Nat × Nat :=
  let state := (state + 0x9e3779b97f4a7c15) % U64
  let z := state
  let z := ((z ^^^ (z >>> 30)) * 0xbf58476d1ce4e5b9) % U64
  let z := ((z ^^^ (z >>> 27)) * 0x94d049bb133111eb) % U64
  let z := z ^^^ (z >>> 31)
  (state, z)

/-- The xoshiro256++ state behind rand 0.8's `SmallRng` on 64-bit targets. -/
structure Rng where
  s0 : Nat
  s1 : Nat
  s2 : Nat
  s3 : Nat
deriving DecidableEq

/-- `SmallRng::seed_from_u64`: fill the four 64-bit state words from the
SplitMix64 stream seeded by `seed`. -/
def seedFromU64 (seed : Nat) : Rng :=
  let p0 := splitmix64 (seed % U64)
  let p1 := splitmix64 p0.1
  let p2 := splitmix64 p1.1
  let p3 := splitmix64 p2.1
  ⟨p0.2, p1.2, p2.2, p3.2⟩

/-- xoshiro256++ `next_u64`. -/
def Rng.nextU64 (r : Rng) : Nat × Rng :=
  let result := (rotl64 ((r.s0 + r.s3) % U64) 23 + r.s0) % U64
  let t := (r.s1 <<< 17) % U64
  let s2 := r.s2 ^^^ r.s0
  let s3 := r.s3 ^^^ r.s1
  let s1 := r.s1 ^^^ s2
  let s0 := r.s0 ^^^ s3
  let s2 := s2 ^^^ t
  let s3 := rotl64 s3 45
  (result, ⟨s0, s1, s2, s3⟩)

/-- xoshiro256++ `next_u32`: the upper half of `next_u64` (the low bits
have linear dependencies). -/
def Rng.nextU32 (r : Rng) : Nat × Rng :=
  let p := r.nextU64
  (p.1 >>> 32, p.2)

/-- The `k` low-order little-endian bytes of `v`. -/
def u64LeBytesN : Nat → Nat → List Nat
  | 0, _ => []
  | k + 1, v => v % 256 :: u64LeBytesN k (v / 256)

/-- `u64::to_le_bytes` / `usize::to_le_bytes` (8 bytes, little endian). -/
def u64LeBytes (v : Nat) : List Nat := u64LeBytesN 8 v

/-- `k` full 8-byte chunks of `rand_core::impls::fill_bytes_via_next`. -/
def fillChunks : Nat → Rng → List Nat × Rng
  | 0, r => ([], r)
  | k + 1, r =>
    let p := r.nextU64
    let rest := fillChunks k p.2
    (u64LeBytes p.1 ++ rest.1, rest.2)

/-- `rand_core::impls::fill_bytes_via_next`, the `fill_bytes` used by
`SmallRng` and hence by `Rng::fill` at `gen.rs` line 77: whole 8-byte
chunks from `next_u64`, then a remainder of more than 4 bytes from
`next_u64`, a remainder of 1-4 bytes from `next_u32`. -/
def Rng.fillBytes (r : Rng) (n : Nat) : List Nat × Rng :=
  let chunks := fillChunks (n / 8) r
  let rem := n % 8
  if rem > 4 then
    let p := chunks.2.nextU64
    (chunks.1 ++ u64LeBytesN rem p.1, p.2)
  else if rem > 0 then
    let p := chunks.2.nextU32
    (chunks.1 ++ u64LeBytesN rem p.1, p.2)
  else (chunks.1, chunks.2)

/-- Bit length of `n`, computed with explicit fuel so that it reduces
structurally (used only on values below `2 ^ fuel`). -/
def bitsWithFuel : Nat → Nat → Nat
  | 0, _ => 0
  | f + 1, n => if n = 0 then 0 else bitsWithFuel f (n / 2) + 1

/-- `u64::leading_zeros` for `n < 2^64`. -/
def leadingZeros64 (n : Nat) : Nat := 64 - bitsWithFuel 64 n

/-- `u32::leading_zeros` for `n < 2^32`. -/
def leadingZeros32 (n : Nat) : Nat := 32 - bitsWithFuel 32 n

/-- Rejection loop of `UniformInt::<usize>::sample_single_inclusive`
(64-bit wide multiply), with explicit fuel; on exhausted fuel it returns
`low` (the real loop terminates with probability 1). -/
def sampleLoop64 (low range zone : Nat) : Nat → Rng → Nat × Rng
  | 0, r => (low, r)
  | fuel + 1, r =>
    let p := r.nextU64
    let prod := p.1 * range
    if prod % U64 ≤ zone then ((low + prod / U64) % U64, p.2)
    else sampleLoop64 low range zone fuel p.2

/-- `rng.gen_range(low..high)` for `usize` bounds (rand 0.8's
`UniformInt::<usize>::sample_single`); rand asserts `low < high`, the
model returns `low` there instead of diverging. -/
def sampleSingleU64 (low high : Nat) (r : Rng) : Nat × Rng :=
  if low < high then
    let range := (high - low) % U64
    if range = 0 then
      r.nextU64
    else
      let zone := (range <<< leadingZeros64 range) % U64 - 1
      sampleLoop64 low range zone 128 r
  else (low, r)

/-- Rejection loop of `UniformInt::<i32>::sample_single_inclusive`
(32-bit wide multiply), with explicit fuel. -/
def sampleLoop32 (low range zone : Nat) : Nat → Rng → Nat × Rng
  | 0, r => (low, r)
  | fuel + 1, r =>
    let p := r.nextU32
    let prod := p.1 * range
    if prod % U32 ≤ zone then ((low + prod / U32) % U32, p.2)
    else sampleLoop32 low range zone fuel p.2

/-- `rng.gen_range(low..high)` for small nonnegative `i32` bounds
(rand 0.8's `UniformInt::<i32>::sample_single`, whose wide type is
`u32`); used by `gen.rs` line 43 as `gen_range(0..2)`. -/
def sampleSingleU32 (low high : Nat) (r : Rng) : Nat × Rng :=
  if low < high then
    let range := (high - low) % U32
    if range = 0 then
      r.nextU32
    else
      let zone := (range <<< leadingZeros32 range) % U32 - 1
      sampleLoop32 low range zone 128 r
  else (low, r)

/-- `base.rs` `Config`: half-open byte-length ranges, a pair
(start, stop) standing for `start..stop`. -/
structure Config where
  key_range : Nat × Nat
  value_range : Nat × Nat
deriving DecidableEq

/-- `gen.rs` `NextOp`. -/
inductive NextOp where
  | put (key : List Nat) (value : List Nat)
  | delete (key : List Nat)
deriving DecidableEq

/-- The key an operation addresses. -/
def NextOp.key : NextOp → List Nat
  | .put k _ => k
  | .delete k => k

/-- `gen.rs` `Generator`. -/
structure Generator where
  seed : Nat
  writer : Nat
  cfg : Config
  rng : Rng
deriving DecidableEq

/-- `Generator::new(seed, writer, cfg)`. -/
def Generator.new (seed writer : Nat) (cfg : Config) : Generator :=
  ⟨seed, writer, cfg, seedFromU64 seed⟩

/-- `Generator::reset`: re-seed the PRNG from the stored seed. -/
def Generator.reset (g : Generator) : Generator :=
  { g with rng := seedFromU64 g.seed }

/-- The 62-symbol alphanumeric alphabet `BYTES` of `gen.rs` line 74
(`a`-`z`, `A`-`Z`, `0`-`9` as ASCII codes). -/
def BYTES : List Nat :=
  [97, 98, 99, 100, 101, 102, 103, 104, 105, 106, 107, 108, 109, 110,
   111, 112, 113, 114, 115, 116, 117, 118, 119, 120, 121, 122,
   65, 66, 67, 68, 69, 70, 71, 72, 73, 74, 75, 76, 77, 78,
   79, 80, 81, 82, 83, 84, 85, 86, 87, 88, 89, 90,
   48, 49, 50, 51, 52, 53, 54, 55, 56, 57]

/-- `Generator::next_bytes`: draw a length uniformly from `range`, fill
that many bytes from the PRNG, then map every byte into the alphabet
via `BYTES[(v % 62)]`. -/
def Generator.nextBytes (g : Generator) (range : Nat × Nat) : List Nat × Generator :=
  let p1 := sampleSingleU64 range.1 range.2 g.rng
  let p2 := p1.2.fillBytes p1.1
  (p2.1.map (fun v => BYTES.getD (v % 62) 0), { g with rng := p2.2 })

/-- `Generator::next_key`: alphabet bytes of a length drawn from
`key_range`, suffixed with the writer identity as 8 little-endian
bytes. -/
def Generator.nextKey (g : Generator) : List Nat × Generator :=
  let p := g.nextBytes g.cfg.key_range
  (p.1 ++ u64LeBytes g.writer, p.2)

/-- `Generator::next_op`: draw `gen_range(0..2)`; 0 is a Put (key then
value), 1 is a Delete (the source marks every other value
unreachable). -/
def Generator.nextOp (g : Generator) : NextOp × Generator :=
  let c := sampleSingleU32 0 2 g.rng
  let g1 : Generator := { g with rng := c.2 }
  if c.1 = 0 then
    let k := g1.nextKey
    let v := k.2.nextBytes g.cfg.value_range
    (.put k.1 v.1, v.2)
  else
    let k := g1.nextKey
    (.delete k.1, k.2)

/-- Draw `K` consecutive operations, returning them with the final
generator state. -/
def Generator.drawOps (g : Generator) : Nat → List NextOp × Generator
  | 0 => ([], g)
  | k + 1 =>
    let p := g.nextOp
    let rest := p.2.drawOps k
    (p.1 :: rest.1, rest.2)

/-- `value.rs` `Value`: (writer identity, step index, payload).  Both
`writer` and `index` are `usize` (8 bytes on the targets at hand). -/
structure Value where
  writer : Nat
  index : Nat
  inner : List Nat
deriving DecidableEq

/-- `Value::encode`: `[writer: 8 bytes LE][index: 8 bytes LE][payload]`. -/
def Value.encode (v : Value) : List Nat :=
  u64LeBytes v.writer ++ u64LeBytes v.index ++ v.inner

/-- `usize::from_le_bytes` on a little-endian digit list. -/
def u64FromLeBytes (bs : List Nat) : Nat :=
  bs.foldr (fun b acc => b + 256 * acc) 0

/-- `impl From<&[u8]> for Value` (`value.rs` lines 41-61): buffers of
length at most `2 * size_of::<usize>() = 16` are fatal (`none`);
otherwise split off the two 8-byte header words and keep the rest as
payload. -/
def Value.decode (bytes : List Nat) : Option Value :=
  if bytes.length ≤ 16 then none
  else
    some ⟨u64FromLeBytes (bytes.take 8),
          u64FromLeBytes ((bytes.drop 8).take 8),
          bytes.drop 16⟩

/-- `writer.rs` `Writer` (with its `CoreWriter`): identity index, the
published step counter, and the exclusively owned generator. -/
structure Writer where
  index : Nat
  step : Nat
  gen : Generator
deriving DecidableEq

/-- Modelled from the spec: `Writer::new` at `writer.rs` line 43 builds
the generator as `Generator::new(seed, config)`, omitting the
writer-identity argument that `Generator::new(seed, writer, cfg)`
requires — the call does not type-check as written.  The spec (and the
replica construction in `Reader::new`) fix the identity to the writer's
index, which is what we embed; the discrepancy itself is recorded by
the claim about writer/replica equivalence. -/
def Writer.new (index seed : Nat) (cfg : Config) : Writer :=
  ⟨index, 0, Generator.new seed index cfg⟩

/-- `Writer::next_op`: increment the published step counter first, then
draw from the generator. -/
def Writer.nextOp (w : Writer) : NextOp × Writer :=
  let w1 : Writer := { w with step := w.step + 1 }
  let p := w1.gen.nextOp
  (p.1, { w1 with gen := p.2 })

/-- The store command a writer issues (the `Collection` is external;
its effect is represented by the command). -/
inductive StoreCmd where
  | putCmd (key : List Nat) (bytes : List Nat)
  | deleteCmd (key : List Nat)
deriving DecidableEq

/-- `Writer::execute`: Delete issues a store delete of the key; Put
reads the current step and issues a put of the value encoded with
(identity, step, payload). -/
def Writer.execute (w : Writer) (op : NextOp) : StoreCmd :=
  match op with
  | .delete key => .deleteCmd key
  | .put key value => .putCmd key (Value.encode ⟨w.index, w.step, value⟩)

/-- `reader.rs` `TrackerExpectStatus`. -/
inductive TrackerExpectStatus where
  | existed (value : List Nat) (step : Nat)
  | deleted
deriving DecidableEq

/-- The tracker's `HashMap<Vec<u8>, TrackerExpectStatus>`, embedded as
an association list with no duplicate keys maintained by `mapInsert` /
`mapRemove`. -/
abbrev ExpectMap := List (List Nat × TrackerExpectStatus)

/-- `HashMap::get`. -/
def mapGet (m : ExpectMap) (k : List Nat) : Option TrackerExpectStatus :=
  match m with
  | [] => none
  | (k1, v) :: rest => if k1 = k then some v else mapGet rest k

/-- `HashMap::remove`. -/
def mapRemove (m : ExpectMap) (k : List Nat) : ExpectMap :=
  m.filter (fun e => !(e.1 == k))

/-- `HashMap::insert` (replacing any previous binding of the key). -/
def mapInsert (m : ExpectMap) (k : List Nat) (v : TrackerExpectStatus) : ExpectMap :=
  (k, v) :: mapRemove m k

/-- `reader.rs` `WriterTracker`: reader-local progress, the private
generator replica, the tracked writer's identity (its published step is
read afresh on every `verify` call and enters the model as a
parameter), and the expectation map. -/
structure WriterTracker where
  accessed_step : Nat
  gen : Generator
  writerIndex : Nat
  expected : ExpectMap
deriving DecidableEq

/-- The tracker built by `Reader::new` for a writer publishing
(seed, index, config): `accessed_step = 0`, a fresh generator replica
`Generator::new(w.seed(), w.index(), w.config())`, an empty map. -/
def WriterTracker.new (wSeed wIndex : Nat) (cfg : Config) : WriterTracker :=
  ⟨0, Generator.new wSeed wIndex cfg, wIndex, []⟩

/-- `WriterTracker::reset`. -/
def WriterTracker.reset (t : WriterTracker) : WriterTracker :=
  { t with accessed_step := 0, gen := t.gen.reset, expected := [] }

/-- Result of the external `collection.get(key)` call as seen by
`verify_next_op`: a transient store error, a stored buffer, or no
value. -/
inductive GetResult where
  | err
  | found (bytes : List Nat)
  | absent
deriving DecidableEq

/-- How one `verify_next_op` call ends.  `transientError` is the `?`
propagation of a store error (retried by the caller); the three
remaining non-`ok` outcomes are the fatal panics of the source. -/
inductive VerifyOutcome where
  | ok
  | transientError
  | staleViolation
  | mismatchViolation
  | codecPanic
deriving DecidableEq

/-- `CoreReader::advance_expect_status`: opportunistically resolve a
stale prediction for the operation's key — a `Deleted` prediction is
confirmed by a Delete, an `Existed` prediction whose step equals the
current accessed step is confirmed by a Put. -/
def advanceExpectStatus (t : WriterTracker) (op : NextOp) : WriterTracker :=
  match op with
  | .delete key =>
    match mapGet t.expected key with
    | some .deleted => { t with expected := mapRemove t.expected key }
    | _ => t
  | .put key _ =>
    match mapGet t.expected key with
    | some (.existed _ step) =>
      if step = t.accessed_step then { t with expected := mapRemove t.expected key }
      else t
    | _ => t

/-- `CoreReader::verify_next_op` (`reader.rs` lines 110-181), with the
store read entering as `get`.  Returns the tracker as left at the point
the call ends (also for the fatal outcomes, which in the source panic
before any further mutation) together with the outcome. -/
def verifyNextOp (get : GetResult) (t0 : WriterTracker) (op : NextOp) :
    WriterTracker × VerifyOutcome :=
  let t := advanceExpectStatus t0 op
  match op with
  | .delete key =>
    match get with
    | .err => (t, .transientError)
    | .absent => (t, .ok)
    | .found bytes =>
      match Value.decode bytes with
      | none => (t, .codecPanic)
      | some v =>
        if v.index + 1 < t.accessed_step then (t, .staleViolation)
        else
          ({ t with expected := mapInsert t.expected key (.existed v.inner v.index) }, .ok)
  | .put key value =>
    match get with
    | .err => (t, .transientError)
    | .absent => ({ t with expected := mapInsert t.expected key .deleted }, .ok)
    | .found bytes =>
      match Value.decode bytes with
      | none => (t, .codecPanic)
      | some v =>
        if v.index + 1 < t.accessed_step then (t, .staleViolation)
        else if v.index = t.accessed_step then
          if v.inner = value then (t, .ok) else (t, .mismatchViolation)
        else
          ({ t with expected := mapInsert t.expected key (.existed value v.index) }, .ok)

/-- `CoreReader::verify_and_reset_tracker`: with unresolved
expectations the process dies (`none`); otherwise the tracker is
reset. -/
def verifyAndResetTracker (t : WriterTracker) : Option WriterTracker :=
  if t.expected.isEmpty then some t.reset else none

/-- How one `CoreReader::verify` call proceeds. -/
inductive VerifyResult where
  | boundaryFatal
  | boundaryReset (t : WriterTracker)
  | stepVerify (t : WriterTracker) (op : NextOp)
deriving DecidableEq

/-- `CoreReader::verify` (`reader.rs` lines 60-87) against the tracked
writer's freshly read published step: at the round boundary finalize
via `verify_and_reset_tracker`; otherwise increment `accessed_step`,
draw the next operation from the replica generator and hand both to the
(retried) `verify_next_op`. -/
def CoreReader.verify (currentStep : Nat) (t : WriterTracker) : VerifyResult :=
  if t.accessed_step = currentStep then
    match verifyAndResetTracker t with
    | none => .boundaryFatal
    | some t1 => .boundaryReset t1
  else
    let t1 : WriterTracker := { t with accessed_step := t.accessed_step + 1 }
    let p := t1.gen.nextOp
    .stepVerify { t1 with gen := p.2 } p.1

/-- The fixture configuration of the spec: key-length interval `[4, 5)`
and value-length interval `[4, 5)`. -/
def fixtureCfg : Config := ⟨(4, 5), (4, 5)⟩

/-! ### Generator bookkeeping lemmas -/

theorem Generator.nextBytes_seed (g : Generator) (r : Nat × Nat) :
    ((g.nextBytes r).2).seed = g.seed := rfl

theorem Generator.nextOp_seed (g : Generator) : ((g.nextOp).2).seed = g.seed := by
  simp only [Generator.nextOp, Generator.nextKey, Generator.nextBytes]
  split <;> rfl

theorem Generator.nextOp_writer (g : Generator) : ((g.nextOp).2).writer = g.writer := by
  simp only [Generator.nextOp, Generator.nextKey, Generator.nextBytes]
  split <;> rfl

theorem Generator.nextOp_cfg (g : Generator) : ((g.nextOp).2).cfg = g.cfg := by
  simp only [Generator.nextOp, Generator.nextKey, Generator.nextBytes]
  split <;> rfl

theorem Generator.nextOp_preserves (g : Generator) :
    ((g.nextOp).2).seed = g.seed ∧ ((g.nextOp).2).writer = g.writer ∧
      ((g.nextOp).2).cfg = g.cfg :=
  ⟨g.nextOp_seed, g.nextOp_writer, g.nextOp_cfg⟩

theorem Generator.drawOps_preserves (K : Nat) :
    ∀ g : Generator, ((g.drawOps K).2).seed = g.seed ∧
      ((g.drawOps K).2).writer = g.writer ∧ ((g.drawOps K).2).cfg = g.cfg := by
  induction K with
  | zero => exact fun g => ⟨rfl, rfl, rfl⟩
  | succ k ih =>
    intro g
    obtain ⟨h1, h2, h3⟩ := ih (g.nextOp).2
    obtain ⟨g1, g2, g3⟩ := Generator.nextOp_preserves g
    exact ⟨by rw [Generator.drawOps, h1, g1], by rw [Generator.drawOps, h2, g2],
      by rw [Generator.drawOps, h3, g3]⟩

/-! ### Little-endian byte lemmas -/

theorem u64LeBytesN_length (k : Nat) : ∀ v : Nat, (u64LeBytesN k v).length = k := by
  induction k with
  | zero => intro v; rfl
  | succ n ih => intro v; simp [u64LeBytesN, ih]

theorem u64FromLeBytes_cons (b : Nat) (l : List Nat) :
    u64FromLeBytes (b :: l) = b + 256 * u64FromLeBytes l := rfl

theorem u64FromLeBytes_u64LeBytesN (k : Nat) :
    ∀ v : Nat, u64FromLeBytes (u64LeBytesN k v) = v % 256 ^ k := by
  induction k with
  | zero => intro v; simp [u64LeBytesN, u64FromLeBytes, Nat.mod_one]
  | succ n ih =>
    intro v
    rw [u64LeBytesN, u64FromLeBytes_cons, ih (v / 256), pow_succ', Nat.mod_mul]

theorem u64FromLeBytes_u64LeBytes (v : Nat) (hv : v < U64) :
    u64FromLeBytes (u64LeBytes v) = v := by
  rw [u64LeBytes, u64FromLeBytes_u64LeBytesN 8 v]
  have h : (256 : Nat) ^ 8 = U64 := by norm_num [U64]
  rw [h, Nat.mod_eq_of_lt hv]

theorem u64LeBytes_length (v : Nat) : (u64LeBytes v).length = 8 :=
  u64LeBytesN_length 8 v

/-- C7: for every (seed, identity, config) and every K, drawing K
operations, resetting, then drawing K operations again yields the same
sequence. -/
theorem generator_reset_replay (seed w : Nat) (cfg : Config) (K : Nat) :
    ((((Generator.new seed w cfg).drawOps K).2.reset).drawOps K).1
      = ((Generator.new seed w cfg).drawOps K).1 := by
  obtain ⟨h1, h2, h3⟩ := Generator.drawOps_preserves K (Generator.new seed w cfg)
  have hr : (((Generator.new seed w cfg).drawOps K).2).reset = Generator.new seed w cfg := by
    rcases hEq : ((Generator.new seed w cfg).drawOps K).2 with ⟨a, b, c, r⟩
    rw [hEq] at h1 h2 h3
    simp only [Generator.new] at h1 h2 h3 ⊢
    simp [Generator.reset, h1, h2, h3]
  rw [hr]

/-- C6 (amended): the codec round-trips on every non-empty payload, and
decoding any buffer of 16 or fewer bytes fails; the encoding of an
empty payload is exactly 16 bytes long and therefore fails to decode. -/
theorem value_codec_roundtrip (w s : Nat) (p : List Nat)
    (hw : w < U64) (hs : s < U64) (hp : p ≠ []) :
    Value.decode (Value.encode ⟨w, s, p⟩) = some ⟨w, s, p⟩ ∧
    ∀ buf : List Nat, buf.length ≤ 16 → Value.decode buf = none := by
  constructor
  · have hplen : 0 < p.length := List.length_pos.mpr hp
    have hlen : (Value.encode ⟨w, s, p⟩).length = 16 + p.length := by
      simp [Value.encode, u64LeBytes_length]
      omega
    rw [Value.decode, if_neg (by omega)]
    have htake : (Value.encode ⟨w, s, p⟩).take 8 = u64LeBytes w :=
      List.take_left' (u64LeBytes_length w)
    have hdrop : (Value.encode ⟨w, s, p⟩).drop 8 = u64LeBytes s ++ p :=
      List.drop_left' (u64LeBytes_length w)
    have htake2 : ((Value.encode ⟨w, s, p⟩).drop 8).take 8 = u64LeBytes s := by
      rw [hdrop]; exact List.take_left' (u64LeBytes_length s)
    have hdrop2 : (Value.encode ⟨w, s, p⟩).drop 16 = p := by
      have : (16 : Nat) = 8 + 8 := by norm_num
      rw [this, ← List.drop_drop, hdrop]
      exact List.drop_left' (u64LeBytes_length s)
    rw [htake, htake2, hdrop2, u64FromLeBytes_u64LeBytes w hw,
      u64FromLeBytes_u64LeBytes s hs]
  · intro buf hbuf
    rw [Value.decode, if_pos hbuf]

/-- C6 counterexample: the claim includes the empty payload, but the
encoding of an empty payload is a 16-byte buffer, which the decoder
rejects as fatally short instead of round-tripping. -/
theorem value_codec_empty_payload_counterexample :
    Value.decode (Value.encode ⟨0, 0, []⟩) = none ∧
    (Value.encode ⟨0, 0, []⟩).length = 16 := by
  exact ⟨rfl, rfl⟩

/-- C6 witness: the amended round-trip evaluated at identity 3, step 5,
payload `[97]`. -/
theorem value_codec_roundtrip_witness :
    Value.decode (Value.encode ⟨3, 5, [97]⟩) = some ⟨3, 5, [97]⟩ ∧
    ∀ buf : List Nat, buf.length ≤ 16 → Value.decode buf = none :=
  value_codec_roundtrip 3 5 [97] (by norm_num [U64]) (by norm_num [U64]) (by simp)

/-! ### Expectation-map lemmas -/

theorem mapGet_mapInsert_self (m : ExpectMap) (k : List Nat) (v : TrackerExpectStatus) :
    mapGet (mapInsert m k v) k = some v := by
  simp [mapInsert, mapGet]

theorem mapGet_mapRemove_ne (m : ExpectMap) (k k1 : List Nat) (h : k1 ≠ k) :
    mapGet (mapRemove m k) k1 = mapGet m k1 := by
  induction m with
  | nil => rfl
  | cons e rest ih =>
    by_cases he : e.1 = k
    · simp only [mapRemove, List.filter] at ih ⊢
      rw [show (!(e.1 == k)) = false by simp [he]]
      rw [ih, mapGet, if_neg (by rw [he]; exact fun hk => h hk.symm)]
    · simp only [mapRemove, List.filter] at ih ⊢
      rw [show (!(e.1 == k)) = true by simp [he]]
      rcases e with ⟨ek, ev⟩
      by_cases hk1 : ek = k1
      · simp [mapGet, hk1]
      · simp only [mapGet, if_neg hk1]
        exact ih

theorem mapGet_mapInsert_ne (m : ExpectMap) (k k1 : List Nat) (v : TrackerExpectStatus)
    (h : k1 ≠ k) : mapGet (mapInsert m k v) k1 = mapGet m k1 := by
  rw [mapInsert, mapGet, if_neg (fun hk => h hk.symm)]
  exact mapGet_mapRemove_ne m k k1 h

/-! ### Frame lemmas for the tracker state machine -/

theorem advanceExpectStatus_accessed (t : WriterTracker) (op : NextOp) :
    (advanceExpectStatus t op).accessed_step = t.accessed_step := by
  unfold advanceExpectStatus
  cases op <;> dsimp only <;> split <;> first | rfl | (split <;> rfl)

theorem advanceExpectStatus_gen (t : WriterTracker) (op : NextOp) :
    (advanceExpectStatus t op).gen = t.gen := by
  unfold advanceExpectStatus
  cases op <;> dsimp only <;> split <;> first | rfl | (split <;> rfl)

theorem advanceExpectStatus_frame (t : WriterTracker) (op : NextOp) (k : List Nat)
    (hk : k ≠ op.key) :
    mapGet (advanceExpectStatus t op).expected k = mapGet t.expected k := by
  unfold advanceExpectStatus
  cases op with
  | delete key =>
    simp only [NextOp.key] at hk
    dsimp only
    split
    · exact mapGet_mapRemove_ne _ _ _ hk
    · rfl
  | put key value =>
    simp only [NextOp.key] at hk
    dsimp only
    split
    · split
      · exact mapGet_mapRemove_ne _ _ _ hk
      · rfl
    · rfl

/-- The tracker `verify_next_op` leaves behind is either the advanced
tracker itself or the advanced tracker with one insertion at the
operation's own key. -/
theorem verifyNextOp_state (get : GetResult) (t0 : WriterTracker) (op : NextOp) :
    (verifyNextOp get t0 op).1 = advanceExpectStatus t0 op ∨
    ∃ st, (verifyNextOp get t0 op).1 =
      { advanceExpectStatus t0 op with
        expected := mapInsert (advanceExpectStatus t0 op).expected op.key st } := by
  unfold verifyNextOp
  cases op with
  | delete key =>
    cases get with
    | err => exact Or.inl rfl
    | absent => exact Or.inl rfl
    | found bytes =>
      dsimp only
      split
      · exact Or.inl rfl
      · split
        · exact Or.inl rfl
        · exact Or.inr ⟨_, rfl⟩
  | put key value =>
    cases get with
    | err => exact Or.inl rfl
    | absent => exact Or.inr ⟨_, rfl⟩
    | found bytes =>
      dsimp only
      split
      · exact Or.inl rfl
      · split
        · exact Or.inl rfl
        · split
          · split
            · exact Or.inl rfl
            · exact Or.inl rfl
          · exact Or.inr ⟨_, rfl⟩

/-- C10: `verify_next_op` touches at most the expectation entry of the
operation's own key; every other key's entry, the tracker's
`accessed_step` and its generator replica are unchanged in all
outcomes (success, transient store error, or violation). -/
theorem verify_next_op_frame (get : GetResult) (t0 : WriterTracker) (op : NextOp)
    (k : List Nat) (hk : k ≠ op.key) :
    mapGet ((verifyNextOp get t0 op).1).expected k = mapGet t0.expected k ∧
    ((verifyNextOp get t0 op).1).accessed_step = t0.accessed_step ∧
    ((verifyNextOp get t0 op).1).gen = t0.gen := by
  have hadv := advanceExpectStatus_frame t0 op k hk
  have hacc := advanceExpectStatus_accessed t0 op
  have hgen := advanceExpectStatus_gen t0 op
  rcases verifyNextOp_state get t0 op with h | ⟨st, h⟩
  · rw [h]; exact ⟨hadv, hacc, hgen⟩
  · rw [h]
    refine ⟨?_, hacc, hgen⟩
    dsimp only
    rw [mapGet_mapInsert_ne _ _ _ _ hk]
    exact hadv

/-- C10 witness: the frame property evaluated at a concrete tracker
holding an expectation for key `[97]`, a Delete of key `[98]`, and a
stored value observed for it. -/
theorem verify_next_op_frame_witness :
    ([97] : List Nat) ≠ (NextOp.delete [98]).key ∧
    (mapGet ((verifyNextOp (.found (Value.encode ⟨0, 0, [99]⟩))
        ⟨1, Generator.new 42 0 fixtureCfg, 0, [([97], .deleted)]⟩
        (.delete [98])).1).expected [97] =
      mapGet ([([97], TrackerExpectStatus.deleted)] : ExpectMap) [97] ∧
    ((verifyNextOp (.found (Value.encode ⟨0, 0, [99]⟩))
        ⟨1, Generator.new 42 0 fixtureCfg, 0, [([97], .deleted)]⟩
        (.delete [98])).1).accessed_step = 1 ∧
    ((verifyNextOp (.found (Value.encode ⟨0, 0, [99]⟩))
        ⟨1, Generator.new 42 0 fixtureCfg, 0, [([97], .deleted)]⟩
        (.delete [98])).1).gen = Generator.new 42 0 fixtureCfg) :=
  ⟨by decide,
   verify_next_op_frame (.found (Value.encode ⟨0, 0, [99]⟩))
     ⟨1, Generator.new 42 0 fixtureCfg, 0, [([97], .deleted)]⟩
     (.delete [98]) [97] (by decide)⟩

/-- C5: at a round boundary (`accessed_step` equals the writer's
published step) `verify` is fatal exactly when the expectation map is
non-empty; with an empty map it resets the tracker to `accessed_step =
0`, a generator rewound to draw count 0 (a freshly seeded replica), and
an empty map. -/
theorem round_boundary_reset (currentStep : Nat) (t : WriterTracker)
    (h : t.accessed_step = currentStep) :
    (CoreReader.verify currentStep t = .boundaryFatal ↔ t.expected ≠ []) ∧
    (t.expected = [] → CoreReader.verify currentStep t =
      .boundaryReset ⟨0, Generator.new t.gen.seed t.gen.writer t.gen.cfg, t.writerIndex, []⟩) := by
  obtain ⟨a, g, wi, e⟩ := t
  obtain ⟨gs, gw, gc, gr⟩ := g
  simp only at h
  constructor
  · cases e with
    | nil =>
      simp [CoreReader.verify, verifyAndResetTracker, h]
    | cons x rest =>
      simp [CoreReader.verify, verifyAndResetTracker, h]
  · intro he
    subst he
    simp [CoreReader.verify, verifyAndResetTracker, h, WriterTracker.reset,
      Generator.reset, Generator.new]

/-- C5 witness: the boundary behavior evaluated on a caught-up tracker
with an empty expectation map at published step 0. -/
theorem round_boundary_reset_witness :
    (⟨0, Generator.new 7 1 fixtureCfg, 1, []⟩ : WriterTracker).accessed_step = 0 ∧
    ((CoreReader.verify 0 ⟨0, Generator.new 7 1 fixtureCfg, 1, []⟩ = .boundaryFatal ↔
        (⟨0, Generator.new 7 1 fixtureCfg, 1, []⟩ : WriterTracker).expected ≠ []) ∧
     ((⟨0, Generator.new 7 1 fixtureCfg, 1, []⟩ : WriterTracker).expected = [] →
        CoreReader.verify 0 ⟨0, Generator.new 7 1 fixtureCfg, 1, []⟩ =
          .boundaryReset ⟨0, Generator.new 7 1 fixtureCfg, 1, []⟩)) := by
  refine ⟨rfl, ?_⟩
  exact round_boundary_reset 0 ⟨0, Generator.new 7 1 fixtureCfg, 1, []⟩ rfl

/-! ### Staleness window and the Put branch -/

/-- C2 (amended): for every decodable stored value observed by
`verify_next_op`, a staleness violation is raised iff
`observed.step + 1 < accessed_step`; the only other violation on an
observed stored value is the value-mismatch panic, which requires
`observed.step = accessed_step` on a Put whose generated value differs
from the stored payload. -/
theorem staleness_violation_iff (t0 : WriterTracker) (op : NextOp) (bytes : List Nat)
    (v : Value) (hv : Value.decode bytes = some v) :
    ((verifyNextOp (.found bytes) t0 op).2 = .staleViolation ↔
      v.index + 1 < t0.accessed_step) ∧
    ((verifyNextOp (.found bytes) t0 op).2 = .mismatchViolation →
      v.index = t0.accessed_step ∧ ∃ key value, op = .put key value ∧ v.inner ≠ value) := by
  have hacc := advanceExpectStatus_accessed t0 op
  cases op with
  | delete key =>
    simp only [verifyNextOp, hv, hacc]
    split
    · next h => exact ⟨⟨(fun _ => h), (fun _ => rfl)⟩, by intro hc; cases hc⟩
    · next h => exact ⟨⟨(fun hc => by cases hc), (fun hc => absurd hc h)⟩, by intro hc; cases hc⟩
  | put key value =>
    simp only [verifyNextOp, hv, hacc]
    split
    · next h => exact ⟨⟨(fun _ => h), (fun _ => rfl)⟩, by intro hc; cases hc⟩
    · next h =>
      split
      · next he =>
        split
        · next hval =>
          exact ⟨⟨(fun hc => by cases hc), (fun hc => absurd hc h)⟩, by intro hc; cases hc⟩
        · next hval =>
          exact ⟨⟨(fun hc => by cases hc), (fun hc => absurd hc h)⟩,
            fun _ => ⟨he, key, value, rfl, hval⟩⟩
      · next he =>
        exact ⟨⟨(fun hc => by cases hc), (fun hc => absurd hc h)⟩, by intro hc; cases hc⟩

/-- C2 counterexample: with `accessed_step = 1` and an observed stored
value at step 1 whose payload differs from the generated one, a
(mismatch) violation is raised although `observed.step + 1 ≥
accessed_step` — refuting the claim that no violation is raised in that
regime. -/
theorem staleness_iff_counterexample :
    (verifyNextOp (.found (Value.encode ⟨0, 1, [98]⟩))
      ⟨1, Generator.new 42 0 fixtureCfg, 0, []⟩ (.put [107] [97])).2 = .mismatchViolation ∧
    Value.decode (Value.encode ⟨0, 1, [98]⟩) = some ⟨0, 1, [98]⟩ ∧
    1 + 1 ≥ (⟨1, Generator.new 42 0 fixtureCfg, 0, []⟩ : WriterTracker).accessed_step := by
  refine ⟨by decide, by decide, by decide⟩

/-- C2 witness: the staleness iff evaluated on a Delete with
`accessed_step = 5` observing a stored value at step 1. -/
theorem staleness_violation_iff_witness :
    Value.decode (Value.encode ⟨0, 1, [98]⟩) = some ⟨0, 1, [98]⟩ ∧
    (((verifyNextOp (.found (Value.encode ⟨0, 1, [98]⟩))
        ⟨5, Generator.new 42 0 fixtureCfg, 0, []⟩ (.delete [107])).2 = .staleViolation ↔
      1 + 1 < 5) ∧
     ((verifyNextOp (.found (Value.encode ⟨0, 1, [98]⟩))
        ⟨5, Generator.new 42 0 fixtureCfg, 0, []⟩ (.delete [107])).2 = .mismatchViolation →
      1 = 5 ∧ ∃ key value, NextOp.delete [107] = .put key value ∧ ([98] : List Nat) ≠ value)) :=
  ⟨by decide,
   staleness_violation_iff ⟨5, Generator.new 42 0 fixtureCfg, 0, []⟩ (.delete [107])
     (Value.encode ⟨0, 1, [98]⟩) ⟨0, 1, [98]⟩ (by decide)⟩

/-- Shared shape of the Put branch when a stored value is present, no
staleness fires, and the stored step differs from `accessed_step`: the
call succeeds and records `Existed` with the freshly generated value
and the stored step. -/
theorem put_present_else (t0 : WriterTracker) (k val bytes : List Nat) (v : Value)
    (hv : Value.decode bytes = some v) (hstale : ¬v.index + 1 < t0.accessed_step)
    (hne : v.index ≠ t0.accessed_step) :
    (verifyNextOp (.found bytes) t0 (.put k val)).2 = .ok ∧
    mapGet ((verifyNextOp (.found bytes) t0 (.put k val)).1).expected k =
      some (.existed val v.index) := by
  have hacc := advanceExpectStatus_accessed t0 (NextOp.put k val)
  simp only [verifyNextOp, hv, hacc]
  rw [if_neg hstale, if_neg hne]
  exact ⟨rfl, mapGet_mapInsert_self _ _ _⟩

/-- C3 (amended): in the Put branch, a stored value whose step exceeds
`accessed_step` is NOT surfaced as a fatal violation: the call returns
success and silently records `Existed{generated value, stored step}` as
a pending expectation. -/
theorem put_ahead_step_records_expectation (t0 : WriterTracker) (k val bytes : List Nat)
    (v : Value) (hv : Value.decode bytes = some v) (hgt : t0.accessed_step < v.index) :
    (verifyNextOp (.found bytes) t0 (.put k val)).2 = .ok ∧
    mapGet ((verifyNextOp (.found bytes) t0 (.put k val)).1).expected k =
      some (.existed val v.index) :=
  put_present_else t0 k val bytes v hv (by omega) (by omega)

/-- C3 counterexample: `accessed_step = 1`, stored step 5 (writer ahead
of reader): the call returns `ok` and records a pending expectation —
no fatal protocol violation is raised, refuting the claim. -/
theorem put_ahead_no_fatal_counterexample :
    (verifyNextOp (.found (Value.encode ⟨0, 5, [98]⟩))
      ⟨1, Generator.new 42 0 fixtureCfg, 0, []⟩ (.put [107] [97])).2 = .ok ∧
    mapGet ((verifyNextOp (.found (Value.encode ⟨0, 5, [98]⟩))
      ⟨1, Generator.new 42 0 fixtureCfg, 0, []⟩ (.put [107] [97])).1).expected [107] =
      some (.existed [97] 5) ∧
    (⟨1, Generator.new 42 0 fixtureCfg, 0, []⟩ : WriterTracker).accessed_step < 5 := by
  refine ⟨by decide, by decide, by decide⟩

/-- C3 witness: the amended behavior evaluated at `accessed_step = 2`
with stored step 7. -/
theorem put_ahead_step_records_expectation_witness :
    Value.decode (Value.encode ⟨0, 7, [98]⟩) = some ⟨0, 7, [98]⟩ ∧ 2 < 7 ∧
    ((verifyNextOp (.found (Value.encode ⟨0, 7, [98]⟩))
        ⟨2, Generator.new 42 0 fixtureCfg, 0, []⟩ (.put [106] [99])).2 = .ok ∧
     mapGet ((verifyNextOp (.found (Value.encode ⟨0, 7, [98]⟩))
        ⟨2, Generator.new 42 0 fixtureCfg, 0, []⟩ (.put [106] [99])).1).expected [106] =
      some (.existed [99] 7)) :=
  ⟨by decide, by decide,
   put_ahead_step_records_expectation ⟨2, Generator.new 42 0 fixtureCfg, 0, []⟩
     [106] [99] (Value.encode ⟨0, 7, [98]⟩) ⟨0, 7, [98]⟩ (by decide) (by decide)⟩

/-- C4 (amended): in the Put branch with a stored value present, no
staleness violation and a stored step different from `accessed_step`,
the recorded expectation is `Existed` with the FRESHLY GENERATED value
(the operation's value, not the stored payload) and the stored step. -/
theorem put_records_generated_value (t0 : WriterTracker) (k val bytes : List Nat)
    (v : Value) (hv : Value.decode bytes = some v)
    (hstale : ¬v.index + 1 < t0.accessed_step) (hne : v.index ≠ t0.accessed_step) :
    (verifyNextOp (.found bytes) t0 (.put k val)).2 = .ok ∧
    mapGet ((verifyNextOp (.found bytes) t0 (.put k val)).1).expected k =
      some (.existed val v.index) :=
  put_present_else t0 k val bytes v hv hstale hne

/-- C4 counterexample: the stored payload is `[98]`, the generated
value is `[97]`; the recorded expectation carries `[97]`, not the
stored value the claim prescribes. -/
theorem put_recorded_value_counterexample :
    Value.decode (Value.encode ⟨0, 0, [98]⟩) = some ⟨0, 0, [98]⟩ ∧
    mapGet ((verifyNextOp (.found (Value.encode ⟨0, 0, [98]⟩))
      ⟨1, Generator.new 42 0 fixtureCfg, 0, []⟩ (.put [107] [97])).1).expected [107] =
      some (.existed [97] 0) ∧
    TrackerExpectStatus.existed [97] 0 ≠ .existed [98] 0 := by
  refine ⟨by decide, by decide, by decide⟩

/-- C4 witness: the amended recording behavior evaluated at
`accessed_step = 2` with stored step 1 and distinct stored/generated
payloads. -/
theorem put_records_generated_value_witness :
    Value.decode (Value.encode ⟨0, 1, [98]⟩) = some ⟨0, 1, [98]⟩ ∧
    ¬(1 : Nat) + 1 < 2 ∧ (1 : Nat) ≠ 2 ∧
    ((verifyNextOp (.found (Value.encode ⟨0, 1, [98]⟩))
        ⟨2, Generator.new 42 0 fixtureCfg, 0, []⟩ (.put [105] [97])).2 = .ok ∧
     mapGet ((verifyNextOp (.found (Value.encode ⟨0, 1, [98]⟩))
        ⟨2, Generator.new 42 0 fixtureCfg, 0, []⟩ (.put [105] [97])).1).expected [105] =
      some (.existed [97] 1)) :=
  ⟨by decide, by decide, by decide,
   put_records_generated_value ⟨2, Generator.new 42 0 fixtureCfg, 0, []⟩
     [105] [97] (Value.encode ⟨0, 1, [98]⟩) ⟨0, 1, [98]⟩ (by decide) (by decide) (by decide)⟩

/-! ### Key-space partitioning -/

theorem BYTES_getD_mem : ∀ i : Nat, i < 62 → BYTES.getD i 0 ∈ BYTES := by decide

theorem Generator.nextBytes_mem (g : Generator) (r : Nat × Nat) :
    ∀ b ∈ (g.nextBytes r).1, b ∈ BYTES := by
  intro b hb
  dsimp only [Generator.nextBytes] at hb
  rw [List.mem_map] at hb
  obtain ⟨v, _, rfl⟩ := hb
  exact BYTES_getD_mem (v % 62) (Nat.mod_lt v (by norm_num))

/-- A key is producible by writer identity `w` under `cfg` when some
generator state carrying that identity and config emits it from
`next_key`. -/
def Producible (w : Nat) (cfg : Config) (k : List Nat) : Prop :=
  ∃ g : Generator, g.writer = w ∧ g.cfg = cfg ∧ (g.nextKey).1 = k

theorem producible_shape (w : Nat) (cfg : Config) (k : List Nat) (h : Producible w cfg k) :
    ∃ p : List Nat, k = p ++ u64LeBytes w ∧ ∀ b ∈ p, b ∈ BYTES := by
  obtain ⟨g, hw, _, hk⟩ := h
  refine ⟨(g.nextBytes g.cfg.key_range).1, ?_, fun b hb => g.nextBytes_mem _ b hb⟩
  have hsplit : (g.nextKey).1 = (g.nextBytes g.cfg.key_range).1 ++ u64LeBytes g.writer := rfl
  rw [← hk, hsplit, hw]

/-- C8: every producible key is alphabet bytes followed by the 8-byte
little-endian identity of its own writer, and the producible key sets
of two distinct writer identities are disjoint, whatever the seeds and
configs. -/
theorem key_space_partition (w1 w2 : Nat) (cfg1 cfg2 : Config)
    (h1 : w1 < U64) (h2 : w2 < U64) (hne : w1 ≠ w2) :
    (∀ k, Producible w1 cfg1 k →
      8 ≤ k.length ∧ k.drop (k.length - 8) = u64LeBytes w1 ∧
        ∀ b ∈ k.take (k.length - 8), b ∈ BYTES) ∧
    (∀ k, ¬(Producible w1 cfg1 k ∧ Producible w2 cfg2 k)) := by
  constructor
  · intro k hk
    obtain ⟨p, rfl, hmem⟩ := producible_shape w1 cfg1 k hk
    have hlen : (p ++ u64LeBytes w1).length = p.length + 8 := by
      simp [u64LeBytes_length]
    have hsub : (p ++ u64LeBytes w1).length - 8 = p.length := by omega
    refine ⟨by omega, ?_, ?_⟩
    · rw [hsub, List.drop_left]
    · rw [hsub, List.take_left]
      exact hmem
  · rintro k ⟨ha, hb⟩
    obtain ⟨p1, hk1, _⟩ := producible_shape w1 cfg1 k ha
    obtain ⟨p2, hk2, _⟩ := producible_shape w2 cfg2 k hb
    have heq : p1 ++ u64LeBytes w1 = p2 ++ u64LeBytes w2 := by rw [← hk1, ← hk2]
    have hsuffix := List.append_inj_right' heq
      (by rw [u64LeBytes_length, u64LeBytes_length])
    have hw : w1 = w2 := by
      rw [← u64FromLeBytes_u64LeBytes w1 h1, ← u64FromLeBytes_u64LeBytes w2 h2, hsuffix]
    exact hne hw

/-- C8 witness: the partition property applied to identities 0 and 1
with the fixture config. -/
theorem key_space_partition_witness :
    (0 : Nat) < U64 ∧ (1 : Nat) < U64 ∧ (0 : Nat) ≠ 1 ∧
    ((∀ k, Producible 0 fixtureCfg k →
        8 ≤ k.length ∧ k.drop (k.length - 8) = u64LeBytes 0 ∧
          ∀ b ∈ k.take (k.length - 8), b ∈ BYTES) ∧
     (∀ k, ¬(Producible 0 fixtureCfg k ∧ Producible 1 fixtureCfg k))) :=
  ⟨by norm_num [U64], by norm_num [U64], by decide,
   key_space_partition 0 1 fixtureCfg fixtureCfg
     (by norm_num [U64]) (by norm_num [U64]) (by decide)⟩

/-! ### Writer step publication and Put encoding -/

/-- C9: a fresh writer publishes step 0; drawing the next operation
increments the published step by exactly one before execution; and
executing a Put drawn at (post-increment) step `s` issues a store put
whose value encodes (writer identity, `s`, generated payload). -/
theorem writer_step_and_put_encoding (i seed : Nat) (cfg : Config) (w : Writer)
    (k v : List Nat) (hput : (w.nextOp).1 = .put k v) :
    (Writer.new i seed cfg).step = 0 ∧
    ((w.nextOp).2).step = w.step + 1 ∧
    ((w.nextOp).2).execute (.put k v) =
      .putCmd k (Value.encode ⟨w.index, w.step + 1, v⟩) := by
  obtain ⟨wi, ws, wg⟩ := w
  exact ⟨rfl, rfl, rfl⟩

/-- C9 witness: the first drawn operation of the writer seeded with 0
under the fixture config is a Put, and executing it issues the encoded
(identity, step 1, payload) store put. -/
theorem writer_step_and_put_encoding_witness :
    ((Writer.new 0 0 fixtureCfg).nextOp).1 =
      .put [53, 106, 102, 102, 0, 0, 0, 0, 0, 0, 0, 0] [65, 101, 97, 116] ∧
    ((Writer.new 3 9 fixtureCfg).step = 0 ∧
     (((Writer.new 0 0 fixtureCfg).nextOp).2).step = (Writer.new 0 0 fixtureCfg).step + 1 ∧
     (((Writer.new 0 0 fixtureCfg).nextOp).2).execute
        (.put [53, 106, 102, 102, 0, 0, 0, 0, 0, 0, 0, 0] [65, 101, 97, 116]) =
       .putCmd [53, 106, 102, 102, 0, 0, 0, 0, 0, 0, 0, 0]
         (Value.encode ⟨(Writer.new 0 0 fixtureCfg).index,
           (Writer.new 0 0 fixtureCfg).step + 1, [65, 101, 97, 116]⟩)) :=
  ⟨by decide,
   writer_step_and_put_encoding 3 9 fixtureCfg (Writer.new 0 0 fixtureCfg) _ _ (by decide)⟩

/-! ### Writer generator identity -/

/-- C1 evaluation: the reader-side replica `Generator::new(w.seed(),
w.index(), w.config())` reproduces a generator only when the identity
argument matches; under the fixture parameters (seed 42, key and value
intervals `[4, 5)`) the replica for writer index 1 already draws a
different first operation than a generator carrying identity 0.  Hence
the writer's stream is NOT determined by its published seed and config
without the identity — which `Writer::new` (writer.rs line 43) fails to
pass to `Generator::new`. -/
theorem writer_generator_identity_sensitivity :
    (WriterTracker.new 42 0 fixtureCfg).gen.nextOp.1 =
      (Generator.new 42 0 fixtureCfg).nextOp.1 ∧
    (WriterTracker.new 42 1 fixtureCfg).gen.nextOp.1 ≠
      (Generator.new 42 0 fixtureCfg).nextOp.1 :=
  ⟨rfl, by decide⟩

end Supervisor
